import Mathlib

/-!
Verification model of the Generic-FIFO priority buffer (src/fifo.c, src/fifo.h).

The C library implements a bounded, thread-safe priority FIFO as a doubly
linked ring with a sentinel node.  We embed the ring as a Lean `List` read
head-to-tail: index 0 is `sentinel->next` (the head end) and the last
element is `sentinel->prev` (the pull end; `fifoPull` removes the last
element).  A `void*` payload is modelled as `Option Nat`, `none` standing
for the NULL pointer.  C `int` fields are modelled as `Int`.

Concurrency is modelled by oracles: where the C code performs
`pthread_cond_wait` (releasing the lock, so other threads may mutate the
buffer before the wait returns) the model takes a `wake` parameter
`(cond_status, buffer-state-at-wake)` describing the outcome of the wait.
A `lock_status` parameter plays the role of the `fifoLockBuffer` result
(0 = mutex acquired).  Each operation additionally reports whether the
mutex is still held when the function returns, so lock-leak behaviour of
each exit path is visible in the model.
-/

/-- Model of `fifo_node_t` (src/fifo.h): payload pointer and priority.
The `next`/`prev` links are represented by the node's position in the
ring list. -/
structure FifoNode where
  data : Option Nat
  priority : Int
deriving DecidableEq, Repr

/-- Model of `fifo_buffer_t` (src/fifo.h): capacity, incrementally
maintained occupancy counter, and the ring of payload-bearing nodes
(head first, pull end last).  The sentinel is implicit: an empty list
is the ring in which `sentinel->next == sentinel->prev == sentinel`. -/
structure FifoBuffer where
  max_buffer_size : Int
  buffer_occupancy : Int
  ring : List FifoNode
deriving DecidableEq, Repr

/-- `fifoNodeCreate` (src/fifo.c:37-47): allocate a node holding `data`
and `priority`, links initialised to NULL. -/
def fifoNodeCreate (data : Option Nat) (priority : Int) : FifoNode :=
  { data := data, priority := priority }

/-- `removeNode` (src/fifo.c:17-31).  The target is `none` for the
sentinel and `some i` for the ring node at index `i`.  Removing the
sentinel is refused: `perror` emits a diagnostic (the `Bool` component)
and NULL is returned with the ring untouched.  Otherwise the node is
unlinked and returned. -/
def removeNode (buffer : FifoBuffer) (target : Option Nat) :
    Option FifoNode × FifoBuffer × Bool :=
  match target with
  | none => (none, buffer, true)
  | some i => (buffer.ring[i]?, { buffer with ring := buffer.ring.eraseIdx i }, false)

/-- `fifoBufferInit` (src/fifo.c:57-73): the capacity argument is stored
unchecked, the occupancy counter starts at 0 and the sentinel is linked
to itself (empty ring).  There is no validation of `max_buffer_size`. -/
def fifoBufferInit (max_buffer_size : Int) : FifoBuffer :=
  { max_buffer_size := max_buffer_size, buffer_occupancy := 0, ring := [] }

/-- The scan-and-insert of `fifoPush` for non-negative priorities
(src/fifo.c:139-145): walk from `sentinel->next` (list head) and insert
the new node immediately before the first node whose priority is
`>= new_node->priority` or negative; if the scan reaches the sentinel,
`addNodeAfter(sentinel->prev, new)` appends at the tail. -/
def insertBeforeGE (new_node : FifoNode) : List FifoNode → List FifoNode
  | [] => [new_node]
  | x :: xs =>
    if x.priority ≥ new_node.priority ∨ x.priority < 0 then
      new_node :: x :: xs
    else
      x :: insertBeforeGE new_node xs

/-- Lines 131-148 of `fifoPush`: create the node, link it into the ring
(negative priority: `addNodeAfter(sentinel->prev, new)`, i.e. append at
the pull end; otherwise the head-to-tail scan) and increment the
occupancy counter. -/
def fifoPushInsert (buffer : FifoBuffer) (data : Option Nat) (priority : Int) :
    FifoBuffer :=
  let new_node := fifoNodeCreate data priority
  let ring' :=
    if priority < 0 then buffer.ring ++ [new_node]
    else insertBeforeGE new_node buffer.ring
  { buffer with ring := ring', buffer_occupancy := buffer.buffer_occupancy + 1 }

/-- Result of a `fifoPush` call: the returned `int`, the buffer state on
return, and whether the mutex is still held by the caller on return. -/
structure PushRet where
  retval : Int
  buffer : FifoBuffer
  lockHeldOnReturn : Bool
deriving DecidableEq, Repr

/-- `fifoPush` (src/fifo.c:107-156).  `lock_status` is the result of
`fifoLockBuffer`.  When the buffer is full and `blocking` is set the code
performs a single `pthread_cond_wait`; `wake` is the oracle for that
wait: its status result and the buffer state once the wait returns (the
lock is released during the wait, so other threads may have changed the
buffer).  Note the two faithful quirks: a failed wait returns
`cond_status` without unlocking (line 121; `pthread_cond_wait` has
re-acquired the mutex by then), and a successful wait falls through to
the insertion with no re-check of the occupancy condition. -/
def fifoPushModel (buffer : FifoBuffer) (data : Option Nat) (priority : Int)
    (blocking : Bool) (lock_status : Int) (wake : Int × FifoBuffer) : PushRet :=
  if lock_status = 0 then
    if buffer.buffer_occupancy ≥ buffer.max_buffer_size then
      if blocking then
        if wake.1 ≠ 0 then
          { retval := wake.1, buffer := wake.2, lockHeldOnReturn := true }
        else
          { retval := 0, buffer := fifoPushInsert wake.2 data priority,
            lockHeldOnReturn := false }
      else
        { retval := -1, buffer := buffer, lockHeldOnReturn := false }
    else
      { retval := 0, buffer := fifoPushInsert buffer data priority,
        lockHeldOnReturn := false }
  else
    { retval := lock_status, buffer := buffer, lockHeldOnReturn := false }

/-- Outcome of a `fifoPull` call: either a returned `void*` value (NULL
modelled as `none`) with the buffer state and the lock-held flag, or a
crash — `fifoNodeDestroy(NULL)` dereferences a NULL node pointer
(undefined behaviour), reachable when line 185 runs on an empty ring. -/
inductive PullResult where
  | ret (value : Option Nat) (buffer : FifoBuffer) (lockHeldOnReturn : Bool)
  | crash (buffer : FifoBuffer)
deriving DecidableEq, Repr

/-- Lines 185-192 of `fifoPull`: `removeNode(buffer, buffer->sentinel->prev)`
— `sentinel->prev` is the last ring node, or the sentinel itself when the
ring is empty, in which case `removeNode` refuses and yields NULL.  The
occupancy counter is decremented unconditionally (line 187), the mutex is
released, and `fifoNodeDestroy(rec)` returns the payload — or dereferences
NULL when `rec` is NULL. -/
def fifoPullCore (buffer : FifoBuffer) : PullResult :=
  let target : Option Nat :=
    if buffer.ring.isEmpty then none else some (buffer.ring.length - 1)
  let r := removeNode buffer target
  let buffer' := { r.2.1 with buffer_occupancy := r.2.1.buffer_occupancy - 1 }
  match r.1 with
  | some n => .ret n.data buffer' false
  | none => .crash buffer'

/-- `fifoPull` (src/fifo.c:158-195), with the same `lock_status` and
`wake` oracles as `fifoPushModel`.  A failed wait returns NULL without
unlocking (line 175); a successful wait falls through to the removal
with no re-check of the occupancy condition. -/
def fifoPullModel (buffer : FifoBuffer) (blocking : Bool)
    (lock_status : Int) (wake : Int × FifoBuffer) : PullResult :=
  if lock_status = 0 then
    if buffer.buffer_occupancy ≤ 0 then
      if blocking then
        if wake.1 ≠ 0 then .ret none wake.2 true
        else fifoPullCore wake.2
      else .ret none buffer false
    else fifoPullCore buffer
  else .ret none buffer false

/-- The drain loop of `fifoFlush` (src/fifo.c:218-225): repeatedly
`removeNode(buffer, buffer->sentinel->prev)` (remove the pull-end node)
and record its payload, until the ring is empty.  `out[0]` is therefore
the last element of the head-to-tail list. -/
def drainTail (l : List FifoNode) : List (Option Nat) :=
  if h : l = [] then []
  else (l.getLast h).data :: drainTail l.dropLast
termination_by l.length
decreasing_by
  have hpos : 0 < l.length := List.length_pos.mpr h
  simp [List.length_dropLast]
  omega

/-- `fifoFlush` (src/fifo.c:197-239): with the mutex obtained, drain the
ring pull-end first into the output array, reset the ring to empty and
the occupancy counter to 0; on a failed lock return NULL. -/
def fifoFlushModel (buffer : FifoBuffer) (lock_status : Int) :
    Option (List (Option Nat)) × FifoBuffer :=
  if lock_status = 0 then
    (some (drainTail buffer.ring),
      { buffer with ring := [], buffer_occupancy := 0 })
  else (none, buffer)

/-- `fifoUpdateOccupancy` (src/fifo.c:253-264): count the ring nodes by
traversal, store the count into `buffer_occupancy` and return it. -/
def fifoUpdateOccupancy (buffer : FifoBuffer) : Int × FifoBuffer :=
  ((buffer.ring.length : Int),
    { buffer with buffer_occupancy := (buffer.ring.length : Int) })

/-- A sequence of pushes through `fifoPushModel` (non-blocking, lock
always acquired, so each push either inserts or fast-fails).  The `i`-th
push of the sequence carries payload `some (start + i)` — a distinct
marker recording arrival order — and the `i`-th priority of `prios`. -/
def pushAllModel (buffer : FifoBuffer) (start : Nat) : List Int → FifoBuffer
  | [] => buffer
  | p :: ps =>
    pushAllModel (fifoPushModel buffer (some start) p false 0 (0, buffer)).buffer
      (start + 1) ps

/-- `n` successive non-blocking pulls through `fifoPullModel`, collecting
the returned values.  (A crash outcome stops the sequence; it is never
reached in the states we consider.) -/
def pullSeq : Nat → FifoBuffer → List (Option Nat) × FifoBuffer
  | 0, buffer => ([], buffer)
  | n + 1, buffer =>
    match fifoPullModel buffer false 0 (0, buffer) with
    | .ret v b _ => ((v :: (pullSeq n b).1), (pullSeq n b).2)
    | .crash b => ([], b)

/-- An operation against the buffer: a push (with payload and priority)
or a pull. -/
inductive FifoOp where
  | push (data : Option Nat) (priority : Int)
  | pull
deriving DecidableEq, Repr

/-- Apply one operation through the real models (non-blocking, lock
acquired), keeping the resulting buffer state. -/
def applyOp (buffer : FifoBuffer) : FifoOp → FifoBuffer
  | .push d p => (fifoPushModel buffer d p false 0 (0, buffer)).buffer
  | .pull =>
    match fifoPullModel buffer false 0 (0, buffer) with
    | .ret _ b _ => b
    | .crash b => b

/-- Run a list of operations left to right. -/
def runOps (buffer : FifoBuffer) : List FifoOp → FifoBuffer
  | [] => buffer
  | op :: ops => runOps (applyOp buffer op) ops

/-- Every operation in the list succeeds: each push finds room (occupancy
below capacity) and each pull finds an item (occupancy positive) in the
state where it runs. -/
def opsOK (buffer : FifoBuffer) : List FifoOp → Bool
  | [] => true
  | op :: ops =>
    (match op with
      | .push _ _ => decide (buffer.buffer_occupancy < buffer.max_buffer_size)
      | .pull => decide (0 < buffer.buffer_occupancy))
    && opsOK (applyOp buffer op) ops

/-- Number of pushes in an operation list. -/
def countPush : List FifoOp → Nat
  | [] => 0
  | .push _ _ :: ops => countPush ops + 1
  | .pull :: ops => countPush ops

/-- Number of pulls in an operation list. -/
def countPull : List FifoOp → Nat
  | [] => 0
  | .push _ _ :: ops => countPull ops
  | .pull :: ops => countPull ops + 1

/-- The arrival marker of a node: in the ordering development each push
carries payload `some i` where `i` is its position in the push sequence,
so `nodeIdx` compares arrival times. -/
def nodeIdx (a : FifoNode) : Nat := a.data.getD 0

/-- The flush/pull order the CODE realises, as a relation on nodes whose
payloads are arrival markers: `a` may precede `b` in the drained output
iff
* both negative: `a` arrived later — negatives come out LIFO;
* `a` negative, `b` non-negative: always (negatives drain first);
* both non-negative: `a` has strictly larger priority, or equal priority
  and `a` arrived earlier (FIFO among ties). -/
def outRelB (a b : FifoNode) : Bool :=
  if a.priority < 0 then
    if b.priority < 0 then decide (nodeIdx b < nodeIdx a) else true
  else if b.priority < 0 then false
  else decide (b.priority < a.priority)
    || (decide (a.priority = b.priority) && decide (nodeIdx a < nodeIdx b))

/-- The flush/pull order the SPEC's ordering law asserts (for comparison
with `outRelB`): negatives first in arrival order (earliest first), then
non-negatives in non-decreasing priority with ties broken by arrival. -/
def specRelB (a b : FifoNode) : Bool :=
  if a.priority < 0 then
    if b.priority < 0 then decide (nodeIdx a < nodeIdx b) else true
  else if b.priority < 0 then false
  else decide (a.priority < b.priority)
    || (decide (a.priority = b.priority) && decide (nodeIdx a < nodeIdx b))

/-- A concrete full buffer: capacity 1, one node in the ring. -/
def fullBuf1 : FifoBuffer :=
  { max_buffer_size := 1, buffer_occupancy := 1,
    ring := [{ data := some 0, priority := 0 }] }

/-- A concrete empty buffer of capacity 2. -/
def emptyBuf2 : FifoBuffer := fifoBufferInit 2

/-- A concrete buffer whose pull-end node carries a NULL payload. -/
def nullPayloadBuf : FifoBuffer :=
  { max_buffer_size := 2, buffer_occupancy := 1,
    ring := [{ data := none, priority := 0 }] }

/-- Claim C3: a push with blocking=false on a full buffer returns -1
(WouldBlock) and leaves the buffer (occupancy and ring) unchanged with
the lock released, and a pull with blocking=false on an empty buffer
returns NULL (Empty) and leaves the buffer unchanged with the lock
released. -/
theorem fifo_nonblocking_fastfail (bufF bufE : FifoBuffer) (d : Option Nat)
    (p : Int) (w w' : Int × FifoBuffer)
    (hF : bufF.buffer_occupancy ≥ bufF.max_buffer_size)
    (hE : bufE.buffer_occupancy ≤ 0) :
    fifoPushModel bufF d p false 0 w =
      { retval := -1, buffer := bufF, lockHeldOnReturn := false } ∧
    fifoPullModel bufE false 0 w' = .ret none bufE false := by
  constructor
  · simp [fifoPushModel, hF]
  · simp [fifoPullModel, hE]

/-- Witness for `fifo_nonblocking_fastfail` at a concrete full buffer of
capacity 1 and a concrete empty buffer of capacity 2. -/
theorem fifo_nonblocking_fastfail_witness :
    fifoPushModel fullBuf1 (some 9) 4 false 0 (0, fullBuf1) =
      { retval := -1, buffer := fullBuf1, lockHeldOnReturn := false } ∧
    fifoPullModel emptyBuf2 false 0 (0, emptyBuf2) = .ret none emptyBuf2 false :=
  fifo_nonblocking_fastfail fullBuf1 emptyBuf2 (some 9) 4 (0, fullBuf1)
    (0, emptyBuf2) (by decide) (by decide)

/-- Claim C2 (code-bug evidence): the blocking paths perform a single
`pthread_cond_wait` guarded by `if`, not a predicate-recheck loop.  If
the wait returns while the predicate is still false, push inserts while
occupancy equals capacity (occupancy is driven to capacity + 1), and
pull attempts a removal while occupancy is 0 (occupancy is driven to -1
and `fifoNodeDestroy(NULL)` dereferences NULL). -/
theorem fifo_wait_without_recheck :
    (fifoPushModel fullBuf1 (some 1) 0 true 0 (0, fullBuf1)).buffer.buffer_occupancy = 2 ∧
    fullBuf1.max_buffer_size = 1 ∧
    (fifoPushModel fullBuf1 (some 1) 0 true 0 (0, fullBuf1)).buffer.ring.length = 2 ∧
    fifoPullModel emptyBuf2 true 0 (0, emptyBuf2) =
      .crash { max_buffer_size := 2, buffer_occupancy := -1, ring := [] } := by
  decide

/-- Claim C6 (code-bug evidence): when the condition wait fails
(`cond_status != 0`, here 22 = EINVAL), push returns `cond_status` and
pull returns NULL while the mutex — re-acquired by `pthread_cond_wait`
before it returned — is still held by the caller. -/
theorem fifo_wait_failure_keeps_lock :
    fifoPushModel fullBuf1 (some 1) 0 true 0 (22, fullBuf1) =
      { retval := 22, buffer := fullBuf1, lockHeldOnReturn := true } ∧
    fifoPullModel emptyBuf2 true 0 (22, emptyBuf2) = .ret none emptyBuf2 true := by
  decide

/-- Counterexample to claim C7: `fifoBufferInit` performs no validation,
so init at the non-positive capacity -5 succeeds, returning an empty
buffer with occupancy 0 instead of failing with InvalidArgument. -/
theorem fifoBufferInit_negative_capacity_succeeds :
    fifoBufferInit (-5) =
      { max_buffer_size := -5, buffer_occupancy := 0, ring := [] } := rfl

/-- Claim C7 (amended): `fifoBufferInit` never fails: for every capacity,
including non-positive ones, it returns an empty buffer with occupancy 0
and the capacity stored unchecked; when the capacity is non-positive the
resulting buffer is permanently full, so every non-blocking push on it
fast-fails with -1. -/
theorem fifoBufferInit_unchecked (c : Int) :
    fifoBufferInit c = { max_buffer_size := c, buffer_occupancy := 0, ring := [] } ∧
    (c ≤ 0 → ∀ (d : Option Nat) (p : Int) (w : Int × FifoBuffer),
      fifoPushModel (fifoBufferInit c) d p false 0 w =
        { retval := -1, buffer := fifoBufferInit c, lockHeldOnReturn := false }) := by
  refine ⟨rfl, fun hc d p w => ?_⟩
  have h : (fifoBufferInit c).buffer_occupancy ≥ (fifoBufferInit c).max_buffer_size := by
    simp only [fifoBufferInit]
    omega
  simp [fifoPushModel, h]

/-- Witness for `fifoBufferInit_unchecked` at capacity -7. -/
theorem fifoBufferInit_unchecked_witness :
    fifoBufferInit (-7) =
      { max_buffer_size := -7, buffer_occupancy := 0, ring := [] } ∧
    fifoPushModel (fifoBufferInit (-7)) (some 3) 5 false 0 (0, fifoBufferInit (-7)) =
      { retval := -1, buffer := fifoBufferInit (-7), lockHeldOnReturn := false } :=
  ⟨(fifoBufferInit_unchecked (-7)).1,
    (fifoBufferInit_unchecked (-7)).2 (by decide) (some 3) 5 (0, fifoBufferInit (-7))⟩

/-- Claim C8: for every buffer, an attempt to remove the sentinel is
refused: a diagnostic is reported (the `true` flag, `perror` in the C
code), NULL is returned instead of a node, and the buffer — ring links
and occupancy — is left unchanged. -/
theorem removeNode_sentinel_refused (buffer : FifoBuffer) :
    removeNode buffer none = (none, buffer, true) := rfl

/-- Claim C10: NULL is overloaded as pull's failure indicator.  The empty
buffer and the buffer whose pull-end node holds a NULL payload both make
`fifoPull` return NULL, and a failed lock acquisition (status 16 = EBUSY)
and a failed condition wait (status 22 = EINVAL) return that same value,
so the caller cannot distinguish the outcomes. -/
theorem fifoPull_null_ambiguity :
    fifoPullModel emptyBuf2 false 0 (0, emptyBuf2) =
      .ret none { max_buffer_size := 2, buffer_occupancy := 0, ring := [] } false ∧
    fifoPullModel nullPayloadBuf false 0 (0, nullPayloadBuf) =
      .ret none { max_buffer_size := 2, buffer_occupancy := 0, ring := [] } false ∧
    fifoPullModel fullBuf1 false 16 (0, fullBuf1) = .ret none fullBuf1 false ∧
    fifoPullModel emptyBuf2 true 0 (22, emptyBuf2) = .ret none emptyBuf2 true := by
  decide

/-- Indexing the concatenation `L ++ [b]` at `L.length` yields `b`. -/
theorem getElem_opt_concat (L : List FifoNode) (b : FifoNode) :
    (L ++ [b])[L.length]? = some b := by
  induction L with
  | nil => rfl
  | cons x xs ih =>
    simp only [List.cons_append, List.length_cons, List.getElem?_cons_succ]
    exact ih

/-- Erasing index `L.length` from `L ++ [b]` removes exactly `b`. -/
theorem eraseIdx_concat (L : List FifoNode) (b : FifoNode) :
    (L ++ [b]).eraseIdx L.length = L := by
  induction L with
  | nil => rfl
  | cons x xs ih => simpa [List.eraseIdx] using ih

/-- On a buffer whose ring ends in node `b`, the pull core removes `b`:
it returns `b`'s payload and the buffer with the last node unlinked and
the occupancy counter decremented. -/
theorem fifoPullCore_concat (buffer : FifoBuffer) (L : List FifoNode)
    (b : FifoNode) (h : buffer.ring = L ++ [b]) :
    fifoPullCore buffer =
      .ret b.data
        { buffer with ring := L,
                      buffer_occupancy := buffer.buffer_occupancy - 1 } false := by
  have hne : (L ++ [b]).isEmpty = false := by
    cases L <;> rfl
  have hlen : (L ++ [b]).length - 1 = L.length := by simp
  simp only [fifoPullCore, removeNode, h, hne, Bool.false_eq_true, if_false,
    hlen, getElem_opt_concat, eraseIdx_concat]

/-- Unfolding the flush loop once at a ring ending in `b`: the pull-end
node `b` comes out first. -/
theorem drainTail_concat (L : List FifoNode) (b : FifoNode) :
    drainTail (L ++ [b]) = b.data :: drainTail L := by
  rw [drainTail]
  simp [List.dropLast_concat]

/-- The flush loop output is the reverse of the head-to-tail payload
list. -/
theorem drainTail_eq_reverse (l : List FifoNode) :
    drainTail l = (l.map FifoNode.data).reverse := by
  induction l using List.reverseRecOn with
  | nil => rw [drainTail]; rfl
  | append_singleton L b ih => simp [drainTail_concat, ih]

/-- Under the ring invariant (occupancy counter equals ring length),
draining a ring of `n` nodes by `n` single pulls yields exactly the
flush-loop output and ends in the empty buffer with occupancy 0. -/
theorem pullSeq_drain (l : List FifoNode) : ∀ buffer : FifoBuffer,
    buffer.ring = l → buffer.buffer_occupancy = (l.length : Int) →
    pullSeq l.length buffer =
      (drainTail l, { buffer with ring := [], buffer_occupancy := 0 }) := by
  induction l using List.reverseRecOn with
  | nil =>
    intro buffer h1 h2
    cases buffer
    simp_all [pullSeq, drainTail]
  | append_singleton L b ih =>
    intro buffer h1 h2
    have hlen : (L ++ [b]).length = L.length + 1 := by simp
    have hocc : ¬ (buffer.buffer_occupancy ≤ 0) := by
      rw [h2, hlen]
      push_cast
      omega
    have hpull : fifoPullModel buffer false 0 (0, buffer) =
        .ret b.data { buffer with ring := L, buffer_occupancy := buffer.buffer_occupancy - 1 } false := by
      rw [fifoPullModel, if_pos rfl, if_neg hocc, fifoPullCore_concat buffer L b h1]
    have hih := ih { buffer with ring := L, buffer_occupancy := buffer.buffer_occupancy - 1 }
      rfl (by rw [h2, hlen]; push_cast; ring)
    rw [hlen]
    simp only [pullSeq, hpull, hih, drainTail_concat]

/-- Claim C4: under the ring invariant (occupancy counter = ring
length), `fifoFlush` removes every node from the pull end to the head
end in one pass and returns exactly the sequence that repeated single
pulls from the same state would have produced; afterwards the ring is
empty and the occupancy counter is 0. -/
theorem fifoFlush_matches_repeated_pulls (buffer : FifoBuffer)
    (h : buffer.buffer_occupancy = (buffer.ring.length : Int)) :
    (fifoFlushModel buffer 0).1 = some (pullSeq buffer.ring.length buffer).1 ∧
    (fifoFlushModel buffer 0).2.ring = [] ∧
    (fifoFlushModel buffer 0).2.buffer_occupancy = 0 := by
  have hp := pullSeq_drain buffer.ring buffer rfl h
  simp [fifoFlushModel, hp]

/-- A concrete three-node mixed-priority buffer satisfying the ring
invariant, for the C4 witness. -/
def mixedBuf3 : FifoBuffer :=
  { max_buffer_size := 4, buffer_occupancy := 3,
    ring := [{ data := some 0, priority := 1 }, { data := some 1, priority := 3 },
             { data := some 2, priority := -1 }] }

/-- Witness for `fifoFlush_matches_repeated_pulls` at `mixedBuf3`. -/
theorem fifoFlush_matches_repeated_pulls_witness :
    (fifoFlushModel mixedBuf3 0).1 = some (pullSeq mixedBuf3.ring.length mixedBuf3).1 ∧
    (fifoFlushModel mixedBuf3 0).2.ring = [] ∧
    (fifoFlushModel mixedBuf3 0).2.buffer_occupancy = 0 :=
  fifoFlush_matches_repeated_pulls mixedBuf3 (by decide)

/-- Inserting one node by the head-to-tail scan grows the ring by
exactly one node. -/
theorem length_insertBeforeGE (n : FifoNode) (l : List FifoNode) :
    (insertBeforeGE n l).length = l.length + 1 := by
  induction l with
  | nil => rfl
  | cons x xs ih =>
    rw [insertBeforeGE]
    split
    · simp
    · simp [ih]

/-- A successful push (occupancy below capacity, lock acquired) performs
exactly the ring insertion and the occupancy increment. -/
theorem fifoPush_success (buffer : FifoBuffer) (d : Option Nat) (p : Int)
    (b : Bool) (w : Int × FifoBuffer)
    (h : buffer.buffer_occupancy < buffer.max_buffer_size) :
    fifoPushModel buffer d p b 0 w =
      { retval := 0, buffer := fifoPushInsert buffer d p,
        lockHeldOnReturn := false } := by
  have h' : ¬ (buffer.buffer_occupancy ≥ buffer.max_buffer_size) := by omega
  simp [fifoPushModel, h']

/-- A successful pull (occupancy positive, lock acquired) runs the
removal core. -/
theorem fifoPull_success (buffer : FifoBuffer) (w : Int × FifoBuffer)
    (h : 0 < buffer.buffer_occupancy) :
    fifoPullModel buffer false 0 w = fifoPullCore buffer := by
  have h' : ¬ (buffer.buffer_occupancy ≤ 0) := by omega
  simp [fifoPullModel, h']

/-- A pushed ring grows by one, whatever the priority. -/
theorem fifoPushInsert_ring_length (buffer : FifoBuffer) (d : Option Nat)
    (p : Int) :
    (fifoPushInsert buffer d p).ring.length = buffer.ring.length + 1 := by
  rw [fifoPushInsert]
  split
  · simp
  · simp [length_insertBeforeGE]

/-- Occupancy bookkeeping for any successful operation sequence: if the
occupancy counter equals the ring length, then after any list of
operations that all succeed, the counter has moved by (pushes − pulls)
and still equals the ring length. -/
theorem runOps_occupancy : ∀ (ops : List FifoOp) (buffer : FifoBuffer),
    buffer.buffer_occupancy = (buffer.ring.length : Int) →
    opsOK buffer ops = true →
    (runOps buffer ops).buffer_occupancy
        = buffer.buffer_occupancy + (countPush ops : Int) - (countPull ops : Int) ∧
    (runOps buffer ops).buffer_occupancy
        = ((runOps buffer ops).ring.length : Int) := by
  intro ops
  induction ops with
  | nil =>
    intro buffer h1 _
    simp [runOps, countPush, countPull, h1]
  | cons op ops ih =>
    intro buffer h1 h2
    cases op with
    | push d p =>
      simp only [opsOK, Bool.and_eq_true, decide_eq_true_eq] at h2
      obtain ⟨hlt, hrest⟩ := h2
      have happ : applyOp buffer (.push d p) = fifoPushInsert buffer d p := by
        rw [applyOp, fifoPush_success buffer d p false (0, buffer) hlt]
      have hinv : (fifoPushInsert buffer d p).buffer_occupancy
          = ((fifoPushInsert buffer d p).ring.length : Int) := by
        rw [fifoPushInsert_ring_length]
        show buffer.buffer_occupancy + 1 = _
        rw [h1]
        push_cast
        ring
      rw [happ] at hrest
      have hmain := ih (fifoPushInsert buffer d p) hinv hrest
      rw [runOps, happ]
      refine ⟨?_, hmain.2⟩
      rw [hmain.1, countPush, countPull]
      show _ = _ + ((countPush ops + 1 : Nat) : Int) - _
      have : (fifoPushInsert buffer d p).buffer_occupancy
          = buffer.buffer_occupancy + 1 := rfl
      rw [this]
      push_cast
      ring
    | pull =>
      simp only [opsOK, Bool.and_eq_true, decide_eq_true_eq] at h2
      obtain ⟨hpos, hrest⟩ := h2
      have hne : buffer.ring ≠ [] := by
        intro hnil
        rw [hnil] at h1
        simp at h1
        omega
      obtain ⟨L, b, hLb⟩ : ∃ L b, buffer.ring = L ++ [b] := by
        rcases List.eq_nil_or_concat buffer.ring with h | ⟨L, b, h⟩
        · exact absurd h hne
        · exact ⟨L, b, by rw [h, List.concat_eq_append]⟩
      have happ : applyOp buffer .pull
          = { buffer with ring := L, buffer_occupancy := buffer.buffer_occupancy - 1 } := by
        rw [applyOp, fifoPull_success buffer (0, buffer) hpos,
          fifoPullCore_concat buffer L b hLb]
      have hinv : ({ buffer with ring := L, buffer_occupancy := buffer.buffer_occupancy - 1 } : FifoBuffer).buffer_occupancy
          = (({ buffer with ring := L, buffer_occupancy := buffer.buffer_occupancy - 1 } : FifoBuffer).ring.length : Int) := by
        show buffer.buffer_occupancy - 1 = (L.length : Int)
        rw [h1, hLb]
        simp
      rw [happ] at hrest
      have hmain := ih _ hinv hrest
      rw [runOps, happ]
      refine ⟨?_, hmain.2⟩
      rw [hmain.1, countPush, countPull]
      show _ = _ + ((countPush ops : Nat) : Int) - ((countPull ops + 1 : Nat) : Int)
      show buffer.buffer_occupancy - 1 + _ - _ = _
      push_cast
      ring

/-- Claim C5: starting from a fresh buffer, after any interleaving of N
successful pushes and M successful pulls (each pull finding an item,
each push finding room), the stored occupancy counter equals N − M, and
the traversal recount `fifoUpdateOccupancy` returns a value equal to the
incrementally maintained counter. -/
theorem fifo_occupancy_law (c : Int) (ops : List FifoOp)
    (h : opsOK (fifoBufferInit c) ops = true) :
    (runOps (fifoBufferInit c) ops).buffer_occupancy
        = (countPush ops : Int) - (countPull ops : Int) ∧
    (fifoUpdateOccupancy (runOps (fifoBufferInit c) ops)).1
        = (runOps (fifoBufferInit c) ops).buffer_occupancy := by
  have hmain := runOps_occupancy ops (fifoBufferInit c) rfl h
  constructor
  · have h1 := hmain.1
    rw [show (fifoBufferInit c).buffer_occupancy = 0 from rfl] at h1
    rw [h1]
    ring
  · rw [fifoUpdateOccupancy]
    exact hmain.2.symm

/-- Witness for `fifo_occupancy_law`: two pushes and one pull on a fresh
capacity-2 buffer. -/
theorem fifo_occupancy_law_witness :
    (runOps (fifoBufferInit 2)
        [.push (some 0) 5, .push (some 1) (-1), .pull]).buffer_occupancy
      = ((countPush [FifoOp.push (some 0) 5, .push (some 1) (-1), .pull] : Nat) : Int)
        - ((countPull [FifoOp.push (some 0) 5, .push (some 1) (-1), .pull] : Nat) : Int) ∧
    (fifoUpdateOccupancy (runOps (fifoBufferInit 2)
        [.push (some 0) 5, .push (some 1) (-1), .pull])).1
      = (runOps (fifoBufferInit 2)
        [.push (some 0) 5, .push (some 1) (-1), .pull]).buffer_occupancy :=
  fifo_occupancy_law 2 [.push (some 0) 5, .push (some 1) (-1), .pull] (by decide)

/-- Unfolded characterisation of the code's drain order. -/
theorem outRelB_true_iff (a b : FifoNode) :
    outRelB a b = true ↔
      (a.priority < 0 ∧ b.priority < 0 ∧ nodeIdx b < nodeIdx a) ∨
      (a.priority < 0 ∧ 0 ≤ b.priority) ∨
      (0 ≤ a.priority ∧ 0 ≤ b.priority ∧
        (b.priority < a.priority ∨
          (a.priority = b.priority ∧ nodeIdx a < nodeIdx b))) := by
  rw [outRelB]
  split_ifs <;> simp <;> omega

/-- Membership after the scan-and-insert: the inserted node joins the
previous members. -/
theorem mem_insertBeforeGE (n y : FifoNode) : ∀ l : List FifoNode,
    y ∈ insertBeforeGE n l ↔ y = n ∨ y ∈ l := by
  intro l
  induction l with
  | nil => simp [insertBeforeGE]
  | cons x xs ih =>
    rw [insertBeforeGE]
    split
    · simp [List.mem_cons]
    · simp only [List.mem_cons, ih]
      tauto

/-- In the drain order a node placed before a negative node is itself
negative: negative nodes occupy the front of the drain order. -/
theorem outRelB_neg_of_neg {a b : FifoNode} (h : outRelB a b = true)
    (hb : b.priority < 0) : a.priority < 0 := by
  rw [outRelB_true_iff] at h
  omega

/-- Appending a fresh negative-priority node (a negative push) at the
pull end preserves the drain-order invariant of the ring. -/
theorem pairwise_append_neg (k : Nat) (p : Int) (hp : p < 0)
    (ring : List FifoNode) (hbound : ∀ x ∈ ring, nodeIdx x < k)
    (hpw : List.Pairwise (fun a b => outRelB b a = true) ring) :
    List.Pairwise (fun a b => outRelB b a = true)
      (ring ++ [{ data := some k, priority := p }]) := by
  rw [List.pairwise_append]
  refine ⟨hpw, List.pairwise_singleton _ _, ?_⟩
  intro x hx y hy
  rw [List.mem_singleton] at hy
  subst hy
  rw [outRelB_true_iff]
  have hb := hbound x hx
  by_cases hx0 : x.priority < 0
  · exact Or.inl ⟨hp, hx0, by simpa [nodeIdx] using hb⟩
  · exact Or.inr (Or.inl ⟨hp, by omega⟩)

/-- Inserting a fresh non-negative-priority node by the head-to-tail
scan preserves the drain-order invariant of the ring. -/
theorem pairwise_insertBeforeGE (k : Nat) (p : Int) (hp : 0 ≤ p) :
    ∀ ring : List FifoNode,
    (∀ x ∈ ring, nodeIdx x < k) →
    List.Pairwise (fun a b => outRelB b a = true) ring →
    List.Pairwise (fun a b => outRelB b a = true)
      (insertBeforeGE { data := some k, priority := p } ring) := by
  intro ring
  induction ring with
  | nil => intro _ _; simp [insertBeforeGE]
  | cons x xs ih =>
    intro hbound hpw
    rw [List.pairwise_cons] at hpw
    obtain ⟨hx, hxs⟩ := hpw
    have hpnew : ({ data := some k, priority := p } : FifoNode).priority = p := rfl
    have hidxnew : nodeIdx { data := some k, priority := p } = k := rfl
    rw [insertBeforeGE]
    split
    case isTrue hcond =>
      rw [List.pairwise_cons]
      refine ⟨?_, List.pairwise_cons.mpr ⟨hx, hxs⟩⟩
      intro y hy
      rw [List.mem_cons] at hy
      rcases hy with rfl | hy
      · -- the found node y itself: its priority is ≥ p or negative
        rw [outRelB_true_iff, hidxnew, hpnew]
        have hb := hbound y (List.mem_cons_self y xs)
        rcases hcond with hge | hneg
        · refine Or.inr (Or.inr ⟨by omega, hp, ?_⟩)
          rcases lt_or_eq_of_le hge with hgt | heq
          · exact Or.inl hgt
          · exact Or.inr ⟨heq.symm, hb⟩
        · exact Or.inr (Or.inl ⟨hneg, hp⟩)
      · -- a node y behind the found node x
        have hyx : outRelB y x = true := hx y hy
        have hb := hbound y (List.mem_cons_of_mem x hy)
        by_cases hy0 : y.priority < 0
        · rw [outRelB_true_iff, hidxnew, hpnew]
          exact Or.inr (Or.inl ⟨hy0, hp⟩)
        · -- y non-negative, so x is non-negative too and y.priority ≥ x.priority ≥ p
          have hx0 : ¬ x.priority < 0 := fun hneg =>
            hy0 (outRelB_neg_of_neg hyx hneg)
          have hxp : x.priority ≥ p := by
            rcases hcond with hge | hneg
            · exact hge
            · exact absurd hneg hx0
          rw [outRelB_true_iff] at hyx
          rw [outRelB_true_iff, hidxnew, hpnew]
          refine Or.inr (Or.inr ⟨by omega, hp, ?_⟩)
          rcases hyx with ⟨h1, _⟩ | ⟨_, h2⟩ | ⟨_, _, h3 | ⟨h4, _⟩⟩
          · omega
          · omega
          · exact Or.inl (by omega)
          · rcases lt_or_eq_of_le hxp with hgt | heq
            · exact Or.inl (by omega)
            · exact Or.inr ⟨by omega, hb⟩
    case isFalse hcond =>
      push_neg at hcond
      rw [List.pairwise_cons]
      constructor
      · intro y hy
        rw [mem_insertBeforeGE] at hy
        rcases hy with rfl | hy
        · -- y is the new node: it drains strictly after x (x has lower priority)
          rw [outRelB_true_iff, hidxnew, hpnew]
          exact Or.inr (Or.inr ⟨hp, by omega, Or.inl (by omega)⟩)
        · exact hx y hy
      · exact ih (fun z hz => hbound z (List.mem_cons_of_mem x hz)) hxs

/-- Arrival-marker bound after the scan-and-insert of a fresh node. -/
theorem bound_insertBeforeGE (k : Nat) (p : Int) (ring : List FifoNode)
    (hbound : ∀ x ∈ ring, nodeIdx x < k) :
    ∀ x ∈ insertBeforeGE { data := some k, priority := p } ring,
      nodeIdx x < k + 1 := by
  intro x hx
  rw [mem_insertBeforeGE] at hx
  rcases hx with rfl | hx
  · simp [nodeIdx]
  · exact Nat.lt_succ_of_lt (hbound x hx)

/-- Arrival-marker bound after appending a fresh node at the pull end. -/
theorem bound_append_node (k : Nat) (p : Int) (ring : List FifoNode)
    (hbound : ∀ x ∈ ring, nodeIdx x < k) :
    ∀ x ∈ ring ++ [{ data := some k, priority := p }], nodeIdx x < k + 1 := by
  intro x hx
  rw [List.mem_append, List.mem_singleton] at hx
  rcases hx with hx | rfl
  · exact Nat.lt_succ_of_lt (hbound x hx)
  · simp [nodeIdx]

/-- Invariant of a successful push sequence: starting from a buffer whose
occupancy counter equals its ring length, whose arrival markers are below
`k` and whose ring is ordered for draining, a sequence of pushes (all
finding room, carrying markers `k`, `k+1`, …) moves the occupancy by the
number of pushes and preserves the ring-length equality, the marker
bound and the drain ordering. -/
theorem pushAll_invariant : ∀ (prios : List Int) (buffer : FifoBuffer) (k : Nat),
    buffer.buffer_occupancy = (buffer.ring.length : Int) →
    buffer.buffer_occupancy + (prios.length : Int) ≤ buffer.max_buffer_size →
    (∀ x ∈ buffer.ring, nodeIdx x < k) →
    List.Pairwise (fun a b => outRelB b a = true) buffer.ring →
    (pushAllModel buffer k prios).buffer_occupancy
        = buffer.buffer_occupancy + (prios.length : Int) ∧
    (pushAllModel buffer k prios).buffer_occupancy
        = ((pushAllModel buffer k prios).ring.length : Int) ∧
    (∀ x ∈ (pushAllModel buffer k prios).ring, nodeIdx x < k + prios.length) ∧
    List.Pairwise (fun a b => outRelB b a = true)
      (pushAllModel buffer k prios).ring := by
  intro prios
  induction prios with
  | nil =>
    intro buffer k h1 _ h3 h4
    exact ⟨by simp [pushAllModel], by simpa [pushAllModel] using h1,
      by simpa [pushAllModel] using h3, by simpa [pushAllModel] using h4⟩
  | cons p ps ih =>
    intro buffer k h1 h2 h3 h4
    have hlt : buffer.buffer_occupancy < buffer.max_buffer_size := by
      rw [List.length_cons] at h2
      push_cast at h2
      omega
    have hstep : (fifoPushModel buffer (some k) p false 0 (0, buffer)).buffer
        = fifoPushInsert buffer (some k) p := by
      rw [fifoPush_success buffer (some k) p false (0, buffer) hlt]
    have hocc' : (fifoPushInsert buffer (some k) p).buffer_occupancy
        = buffer.buffer_occupancy + 1 := rfl
    have hmax' : (fifoPushInsert buffer (some k) p).max_buffer_size
        = buffer.max_buffer_size := rfl
    have hinv1 : (fifoPushInsert buffer (some k) p).buffer_occupancy
        = ((fifoPushInsert buffer (some k) p).ring.length : Int) := by
      rw [hocc', fifoPushInsert_ring_length, h1]
      push_cast
      ring
    have hcap : (fifoPushInsert buffer (some k) p).buffer_occupancy
        + (ps.length : Int) ≤ (fifoPushInsert buffer (some k) p).max_buffer_size := by
      rw [hocc', hmax']
      rw [List.length_cons] at h2
      push_cast at h2 ⊢
      omega
    have hbound' : ∀ x ∈ (fifoPushInsert buffer (some k) p).ring,
        nodeIdx x < k + 1 := by
      by_cases hp : p < 0
      · have hr : (fifoPushInsert buffer (some k) p).ring
            = buffer.ring ++ [{ data := some k, priority := p }] := by
          simp [fifoPushInsert, fifoNodeCreate, hp]
        rw [hr]
        exact bound_append_node k p buffer.ring h3
      · have hr : (fifoPushInsert buffer (some k) p).ring
            = insertBeforeGE { data := some k, priority := p } buffer.ring := by
          simp [fifoPushInsert, fifoNodeCreate, hp]
        rw [hr]
        exact bound_insertBeforeGE k p buffer.ring h3
    have hpw' : List.Pairwise (fun a b => outRelB b a = true)
        (fifoPushInsert buffer (some k) p).ring := by
      by_cases hp : p < 0
      · have hr : (fifoPushInsert buffer (some k) p).ring
            = buffer.ring ++ [{ data := some k, priority := p }] := by
          simp [fifoPushInsert, fifoNodeCreate, hp]
        rw [hr]
        exact pairwise_append_neg k p hp buffer.ring h3 h4
      · have hr : (fifoPushInsert buffer (some k) p).ring
            = insertBeforeGE { data := some k, priority := p } buffer.ring := by
          simp [fifoPushInsert, fifoNodeCreate, hp]
        rw [hr]
        exact pairwise_insertBeforeGE k p (by omega) buffer.ring h3 h4
    have hrec := ih (fifoPushInsert buffer (some k) p) (k + 1) hinv1 hcap hbound' hpw'
    obtain ⟨g1, g2, g3, g4⟩ := hrec
    have hunfold : pushAllModel buffer k (p :: ps)
        = pushAllModel (fifoPushInsert buffer (some k) p) (k + 1) ps := by
      rw [pushAllModel, hstep]
    rw [hunfold]
    refine ⟨?_, g2, ?_, g4⟩
    · rw [g1, hocc', List.length_cons]
      push_cast
      ring
    · intro x hx
      have := g3 x hx
      rw [List.length_cons]
      omega

/-- Claim C1 (amended): for every sequence of successful pushes (capacity
at least the number of pushes, markers 0,1,… recording arrival order), a
full flush drains the ring pull-end first, and the drained node order
satisfies, pairwise: all negative-priority nodes precede all non-negative
ones; among themselves the negative-priority nodes come out in REVERSE
arrival order (latest pushed first); the non-negative nodes come out in
NON-INCREASING numeric priority (larger priority value drains sooner),
with ties broken by arrival order (earliest first). -/
theorem fifoFlush_ordering_law (c : Int) (prios : List Int)
    (hc : (prios.length : Int) ≤ c) :
    (fifoFlushModel (pushAllModel (fifoBufferInit c) 0 prios) 0).1
      = some ((pushAllModel (fifoBufferInit c) 0 prios).ring.reverse.map
          FifoNode.data) ∧
    List.Pairwise (fun a b => outRelB a b = true)
      ((pushAllModel (fifoBufferInit c) 0 prios).ring.reverse) := by
  have hinv := pushAll_invariant prios (fifoBufferInit c) 0 rfl
    (by simpa [fifoBufferInit] using hc)
    (by intro x hx; simp [fifoBufferInit] at hx) List.Pairwise.nil
  constructor
  · rw [fifoFlushModel, if_pos rfl, drainTail_eq_reverse, List.map_reverse]
  · rw [List.pairwise_reverse]
    exact hinv.2.2.2

/-- Witness for `fifoFlush_ordering_law` at priorities [5, 0, -3, 0] on a
capacity-4 buffer. -/
theorem fifoFlush_ordering_law_witness :
    (fifoFlushModel (pushAllModel (fifoBufferInit 4) 0 [5, 0, -3, 0]) 0).1
      = some ((pushAllModel (fifoBufferInit 4) 0 [5, 0, -3, 0]).ring.reverse.map
          FifoNode.data) ∧
    List.Pairwise (fun a b => outRelB a b = true)
      ((pushAllModel (fifoBufferInit 4) 0 [5, 0, -3, 0]).ring.reverse) :=
  fifoFlush_ordering_law 4 [5, 0, -3, 0] (by decide)

/-- Counterexample to claim C1 as stated: push priorities -1, -1, 2, 5
(arrival markers 0, 1, 2, 3) into a capacity-4 buffer.  The claim
predicts flush order [some 0, some 1, some 2, some 3] (negatives in
arrival order, then non-negatives in non-decreasing priority); the code
flushes [some 1, some 0, some 3, some 2] — negatives in reverse arrival
order and non-negatives in decreasing priority — so the claimed pairwise
ordering fails on the drained sequence. -/
theorem fifo_ordering_claim_counterexample :
    (fifoFlushModel (pushAllModel (fifoBufferInit 4) 0 [-1, -1, 2, 5]) 0).1
      = some [some 1, some 0, some 3, some 2] ∧
    ¬ List.Pairwise (fun a b => specRelB a b = true)
      ((pushAllModel (fifoBufferInit 4) 0 [-1, -1, 2, 5]).ring.reverse) := by
  constructor
  · rw [fifoFlushModel, if_pos rfl, drainTail_eq_reverse]
    decide
  · decide
